import Mathlib

/-!
Verification of the kintone MCP server's query-clause extractor and record
retrieval client (`src/kintone_mcp_server_python3/utils.py` and `client.py`).

Text is modelled as `List Char`.  The three regular expressions used by
`parse_kintone_query` are hand-specialised matchers: every greedy quantifier
in those patterns is followed by a character class disjoint from its own
(whitespace vs. non-whitespace, whitespace vs. letters/digits), so Python's
backtracking engine is forced to the maximal munch at every step and the
leftmost `re.search` match is computed by scanning start positions from the
left.  Character classes are modelled on the ASCII fragment of the input.
-/

namespace Kintone

/-- Python regex class `\s`, restricted to ASCII: space, tab, newline,
vertical tab, form feed, carriage return. -/
def isPySpace (c : Char) : Bool :=
  c.toNat = 32 || c.toNat = 9 || c.toNat = 10 || c.toNat = 11 || c.toNat = 12 || c.toNat = 13

/-- Python regex class `\d`, restricted to ASCII: decimal digits. -/
def isPyDigit (c : Char) : Bool :=
  48 ≤ c.toNat && c.toNat ≤ 57

/-- ASCII case folding used to model `re.IGNORECASE` keyword matching:
uppercase letters fold onto lowercase codes, every other character is
untouched.  Folding to `Nat` keeps all reasoning in plain arithmetic. -/
def foldCase (c : Char) : Nat :=
  if 65 ≤ c.toNat ∧ c.toNat ≤ 90 then c.toNat + 32 else c.toNat

/-- Length of the maximal prefix of `s` whose characters satisfy `p`
(the forced maximal munch of a greedy `p`-class quantifier). -/
def munch (p : Char → Bool) : List Char → Nat
  | [] => 0
  | c :: rest => if p c then munch p rest + 1 else 0

/-- Case-insensitive test that the keyword `kw` is a prefix of `s`. -/
def ciStartsWith : List Char → List Char → Bool
  | [], _ => true
  | _ :: _, [] => false
  | k :: ks, c :: cs => foldCase k = foldCase c && ciStartsWith ks cs

/-- Value of a run of decimal digits (the behaviour of Python `int` on the
digit-only group captured by `(\d+)`). -/
def digitsToNat (ds : List Char) : Nat :=
  ds.foldl (fun a c => a * 10 + (c.toNat - 48)) 0

def kwLimit : List Char := ['l', 'i', 'm', 'i', 't']
def kwOffset : List Char := ['o', 'f', 'f', 's', 'e', 't']

/-- Match of `\s+<kw>\s+(\d+)` anchored at the head of `s` (the shape of the
`limit` and `offset` patterns).  Returns the matched length together with the
captured digit characters. -/
def numClauseAt (kw : List Char) (s : List Char) : Option (Nat × List Char) :=
  let w1 := munch isPySpace s
  if w1 = 0 then none else
  let s1 := s.drop w1
  if ciStartsWith kw s1 then
    let s2 := s1.drop kw.length
    let w2 := munch isPySpace s2
    if w2 = 0 then none else
    let s3 := s2.drop w2
    let d := munch isPyDigit s3
    if d = 0 then none else
    some (w1 + kw.length + w2 + d, s3.take d)
  else none

/-- `re.search` for the numeric clause patterns: scan start positions from the
left, return `(start, length, captured digits)` of the first match. -/
def searchNumAux (kw : List Char) : List Char → Nat → Option (Nat × Nat × List Char)
  | [], _ => none
  | c :: rest, i =>
    match numClauseAt kw (c :: rest) with
    | some (len, ds) => some (i, len, ds)
    | none => searchNumAux kw rest (i + 1)

def searchNum (kw s : List Char) : Option (Nat × Nat × List Char) :=
  searchNumAux kw s 0

/-- Extra length consumed by the optional group `(?:\s+(?:asc|desc))?` when it
matches at the head of `s` (`asc` is tried before `desc`; a keyword may match
as a strict prefix of a longer word, exactly as the regex does). -/
def ascDescOpt (s : List Char) : Nat :=
  let w := munch isPySpace s
  if w = 0 then 0 else
  let s1 := s.drop w
  if ciStartsWith ['a', 's', 'c'] s1 then w + 3
  else if ciStartsWith ['d', 'e', 's', 'c'] s1 then w + 4
  else 0

/-- One iteration of the starred group `(?:\s*,\s*[^\s]+(?:\s+(?:asc|desc))?)`
anchored at the head of `s`; returns the matched length. -/
def starIter (s : List Char) : Option Nat :=
  let w1 := munch isPySpace s
  match s.drop w1 with
  | ',' :: s2 =>
    let w2 := munch isPySpace s2
    let s3 := s2.drop w2
    let t := munch (fun c => !isPySpace c) s3
    if t = 0 then none
    else some (w1 + 1 + w2 + t + ascDescOpt (s3.drop t))
  | _ => none

/-- Total length consumed by the greedy star: iterate `starIter` until it
fails.  Each iteration consumes at least one character, so `s.length` is
always enough fuel; the fuel only makes the recursion structural. -/
def starLenFuel : Nat → List Char → Nat
  | 0, _ => 0
  | fuel + 1, s =>
    match starIter s with
    | none => 0
    | some n => n + starLenFuel fuel (s.drop n)

def starLen (s : List Char) : Nat := starLenFuel s.length s

/-- Match of the order-by pattern
`\s+order\s+by\s+([^\s]+(?:\s+(?:asc|desc))?(?:\s*,\s*[^\s]+(?:\s+(?:asc|desc))?)*)`
anchored at the head of `s`; returns the matched length. -/
def orderClauseAt (s : List Char) : Option Nat :=
  let w1 := munch isPySpace s
  if w1 = 0 then none else
  let s1 := s.drop w1
  if ciStartsWith ['o', 'r', 'd', 'e', 'r'] s1 then
    let s2 := s1.drop 5
    let w2 := munch isPySpace s2
    if w2 = 0 then none else
    let s3 := s2.drop w2
    if ciStartsWith ['b', 'y'] s3 then
      let s4 := s3.drop 2
      let w3 := munch isPySpace s4
      if w3 = 0 then none else
      let s5 := s4.drop w3
      let t := munch (fun c => !isPySpace c) s5
      if t = 0 then none else
      let s6 := s5.drop t
      let a := ascDescOpt s6
      some (w1 + 5 + w2 + 2 + w3 + t + a + starLen (s6.drop a))
    else none
  else none

/-- `re.search` for the order-by pattern: leftmost match as `(start, length)`. -/
def searchOrderAux : List Char → Nat → Option (Nat × Nat)
  | [], _ => none
  | c :: rest, i =>
    match orderClauseAt (c :: rest) with
    | some len => some (i, len)
    | none => searchOrderAux rest (i + 1)

def searchOrder (s : List Char) : Option (Nat × Nat) :=
  searchOrderAux s 0

/-- `base_query[:start] + base_query[end:]`, the removal of a matched span. -/
def removeSpan (s : List Char) (start len : Nat) : List Char :=
  s.take start ++ s.drop (start + len)

/-- Python `str.strip()` on the ASCII fragment: drop leading and trailing
whitespace. -/
def pyStrip (s : List Char) : List Char :=
  ((s.dropWhile isPySpace).reverse.dropWhile isPySpace).reverse

/-- Result shape of `parse_kintone_query` (`base_query`, `order_by`,
`limit`, `offset`). -/
structure ParseResult where
  base_query : List Char
  order_by : Option (List Char)
  limit : Option Nat
  offset : Option Nat
deriving DecidableEq, Repr

/-- Shallow embedding of `utils.parse_kintone_query`.  Mirrors the source
statement by statement: the empty/absent early return; the order-by, limit and
offset searches against the original query (the latter two supplying
`query_limit`/`query_offset`); removal of the order-by span; then the removal
loop `for pattern in [offset_pattern, limit_pattern]`, re-searching the
already-modified text; the final `strip`; and the limit/offset merge with the
defaults. -/
def parse_kintone_query (query : Option (List Char))
    (default_limit default_offset : Option Nat) : ParseResult :=
  match query with
  | none => ⟨[], none, default_limit, default_offset⟩
  | some [] => ⟨[], none, default_limit, default_offset⟩
  | some (c :: cs) =>
    let q := c :: cs
    let order_match := searchOrder q
    let order_by := order_match.map (fun m => pyStrip ((q.drop m.1).take m.2))
    let limit_match := searchNum kwLimit q
    let query_limit := limit_match.map (fun m => digitsToNat m.2.2)
    let offset_match := searchNum kwOffset q
    let query_offset := offset_match.map (fun m => digitsToNat m.2.2)
    let base0 :=
      match order_match with
      | some m => removeSpan q m.1 m.2
      | none => q
    let base1 :=
      match searchNum kwOffset base0 with
      | some m => removeSpan base0 m.1 m.2.1
      | none => base0
    let base2 :=
      match searchNum kwLimit base1 with
      | some m => removeSpan base1 m.1 m.2.1
      | none => base1
    let base_query := pyStrip base2
    let final_limit :=
      match query_limit, default_limit with
      | some ql, some d => some (min ql d)
      | some ql, none => some ql
      | none, d => d
    let final_offset :=
      match query_offset with
      | some qo => some qo
      | none => default_offset
    ⟨base_query, order_by, final_limit, final_offset⟩

/-- Characters of a string literal. -/
def pstr (s : String) : List Char := s.data

/-! ### Named clause steps

The individual search/remove steps of the extractor, named so that theorems
can speak about the pipeline structure.  `removeNum`/`removeOrderBy` excise
the first match (if any) of the corresponding pattern from the given text. -/

def removeOrderBy (q : List Char) : List Char :=
  match searchOrder q with
  | some m => removeSpan q m.1 m.2
  | none => q

def removeNum (kw : List Char) (q : List Char) : List Char :=
  match searchNum kw q with
  | some m => removeSpan q m.1 m.2.1
  | none => q

/-- `query_limit`: digits of the first limit match in the given text. -/
def queryLimitOf (q : List Char) : Option Nat :=
  (searchNum kwLimit q).map (fun m => digitsToNat m.2.2)

/-- `query_offset`: digits of the first offset match in the given text. -/
def queryOffsetOf (q : List Char) : Option Nat :=
  (searchNum kwOffset q).map (fun m => digitsToNat m.2.2)

/-- The final-limit merge of the source: minimum when both present, the query
limit when only it is present, otherwise the (possibly absent) default. -/
def mergeLimit : Option Nat → Option Nat → Option Nat
  | some ql, some d => some (min ql d)
  | some ql, none => some ql
  | none, d => d

/-! ### Exception-instrumented extractor

`parse_kintone_query` calls Python `int()` on each captured digit group.  To
state that the extractor is total (never raises), the embedding below routes
those two conversions through a checked parser that fails on an empty or
non-digit group, and propagates the failure as an `Except.error`; every other
step of the source (regex search, slicing, strip) is a total operation. -/

/-- Checked `int()` on a captured group: fails unless the text is a nonempty
run of decimal digits. -/
def pyIntDigits (ds : List Char) : Option Nat :=
  if ds ≠ [] ∧ ds.all isPyDigit then some (digitsToNat ds) else none

/-- `parse_kintone_query` with the two `int()` calls modelled as fallible. -/
def parse_kintone_queryE (query : Option (List Char))
    (default_limit default_offset : Option Nat) : Except (List Char) ParseResult :=
  match query with
  | none => .ok ⟨[], none, default_limit, default_offset⟩
  | some [] => .ok ⟨[], none, default_limit, default_offset⟩
  | some (c :: cs) => do
    let q := c :: cs
    let order_match := searchOrder q
    let order_by := order_match.map (fun m => pyStrip ((q.drop m.1).take m.2))
    let query_limit : Option Nat ←
      match searchNum kwLimit q with
      | some m =>
        match pyIntDigits m.2.2 with
        | some v => pure (some v)
        | none => throw (pstr "invalid literal for int() with base 10")
      | none => pure none
    let query_offset : Option Nat ←
      match searchNum kwOffset q with
      | some m =>
        match pyIntDigits m.2.2 with
        | some v => pure (some v)
        | none => throw (pstr "invalid literal for int() with base 10")
      | none => pure none
    let base0 :=
      match order_match with
      | some m => removeSpan q m.1 m.2
      | none => q
    let base1 :=
      match searchNum kwOffset base0 with
      | some m => removeSpan base0 m.1 m.2.1
      | none => base0
    let base2 :=
      match searchNum kwLimit base1 with
      | some m => removeSpan base1 m.1 m.2.1
      | none => base1
    pure ⟨pyStrip base2, order_by, mergeLimit query_limit default_limit,
      match query_offset with
      | some qo => some qo
      | none => default_offset⟩

/-! ### Record retrieval client -/

/-- Modelled from the spec: `constants.py` is not among the sources; the
client docstrings state that records are retrieved at most 500 per request,
and the spec speaks of "a desired page size (capped at a fixed maximum per
request)". -/
def MAX_RECORDS_PER_REQUEST : Nat := 500

/-- Decimal rendering of a number inside an f-string. -/
def natToChars (n : Nat) : List Char := Nat.toDigits 10 n

/-- The query parameter sent by `KintoneClient.get_records`: the caller query
(when truthy) with the literal `limit <size> offset <offset>` suffix appended
by an f-string, where `size = min(limit, MAX_RECORDS_PER_REQUEST)`. -/
def get_records_query (query : Option (List Char)) (limit offset : Nat) : List Char :=
  let size := min limit MAX_RECORDS_PER_REQUEST
  let suffix := pstr "limit " ++ natToChars size ++ pstr " offset " ++ natToChars offset
  match query with
  | some (c :: cs) => (c :: cs) ++ ' ' :: suffix
  | _ => suffix

/-- The pagination loop of `KintoneClient.get_all_records`, instrumented with
the list of offsets it requests.  `server` abstracts the remote API: the
records returned for a given query parameter (the app id and field list are
fixed inside it).  The loop body mirrors the source: fetch a page with
`limit = batch_size` at the current offset, stop on an empty page, accumulate,
stop on a page shorter than `batch_size`, else advance the offset by
`batch_size`.  The Python `while True` loop is given explicit fuel; every
theorem assumes enough fuel for the run it describes. -/
def get_all_records_aux {α : Type} (server : List Char → List α)
    (query : Option (List Char)) (batch : Nat) : Nat → Nat → List α × List Nat
  | 0, _ => ([], [])
  | fuel + 1, offset =>
    let records := server (get_records_query query batch offset)
    if records.isEmpty then ([], [offset])
    else if records.length < batch then (records, [offset])
    else
      let rest := get_all_records_aux server query batch fuel (offset + batch)
      (records ++ rest.1, offset :: rest.2)

/-- `get_all_records`: run the loop from offset 0; returns the concatenated
records together with the requested offsets. -/
def get_all_records {α : Type} (server : List Char → List α)
    (query : Option (List Char)) (batch fuel : Nat) : List α × List Nat :=
  get_all_records_aux server query batch fuel 0

/-! ### update_record -/

/-- The request body `KintoneClient.update_record` constructs: the optional
fields are included exactly when the corresponding argument was given. -/
structure UpdateRecordRequest (ρ υ : Type) where
  app : Nat
  record : ρ
  id : Option Nat
  updateKey : Option υ
  revision : Option Nat

/-- Outcome of `update_record` up to the HTTP call: either the validation
error raised before any request is built, or the request body handed to
`_make_request`. -/
inductive UpdateRecordOutcome (ρ υ : Type) where
  | validationError (message : List Char)
  | request (body : UpdateRecordRequest ρ υ)

/-- Shallow embedding of `KintoneClient.update_record` up to the HTTP call:
raise `KintoneValidationError` when both `id` and `update_key` are `None`,
otherwise construct the request body. -/
def update_record {ρ υ : Type} (app : Nat) (record : ρ) (id : Option Nat)
    (update_key : Option υ) (revision : Option Nat) : UpdateRecordOutcome ρ υ :=
  match id, update_key with
  | none, none =>
    .validationError (pstr "Either id or update_key must be specified")
  | _, _ => .request ⟨app, record, id, update_key, revision⟩

/-! ### The extractor as the specification describes it

Two definitions written from the specification's words, for comparison with
the embedded source.  They deviate from the source exactly where the
specification deviates from it. -/

/-- The extractor as claim C1 words it: the limit clause is matched against
the text *after* order-by removal, that same match both supplies
`query_limit` and is removed, and the limit removal happens before the offset
clause is searched. -/
def parse_kintone_query_asSpecifiedC1 (query : Option (List Char))
    (default_limit default_offset : Option Nat) : ParseResult :=
  match query with
  | none => ⟨[], none, default_limit, default_offset⟩
  | some [] => ⟨[], none, default_limit, default_offset⟩
  | some (c :: cs) =>
    let q := c :: cs
    let order_match := searchOrder q
    let order_by := order_match.map (fun m => pyStrip ((q.drop m.1).take m.2))
    let t0 :=
      match order_match with
      | some m => removeSpan q m.1 m.2
      | none => q
    let limit_match := searchNum kwLimit t0
    let query_limit := limit_match.map (fun m => digitsToNat m.2.2)
    let t1 :=
      match limit_match with
      | some m => removeSpan t0 m.1 m.2.1
      | none => t0
    let offset_match := searchNum kwOffset t1
    let query_offset := offset_match.map (fun m => digitsToNat m.2.2)
    let t2 :=
      match offset_match with
      | some m => removeSpan t1 m.1 m.2.1
      | none => t1
    ⟨pyStrip t2, order_by, mergeLimit query_limit default_limit,
      match query_offset with
      | some qo => some qo
      | none => default_offset⟩

/-- The `get_records` query parameter as claim C2 words it: invoke the
extractor with the caller query, the page size as the default limit and
offset 0, and send the extracted `base_query`, the extracted `order_by` when
present, and a re-appended literal `limit <n> offset <m>` suffix. -/
def get_records_query_asSpecifiedC2 (query : Option (List Char))
    (limit _offset : Nat) : List Char :=
  let size := min limit MAX_RECORDS_PER_REQUEST
  let pr := parse_kintone_query query (some size) (some 0)
  pr.base_query
    ++ (match pr.order_by with
        | some ob => ' ' :: ob
        | none => [])
    ++ pstr " limit " ++ natToChars (pr.limit.getD size)
    ++ pstr " offset " ++ natToChars (pr.offset.getD 0)

/-- Substring test used to state containment of a matched span. -/
def startsWithChars : List Char → List Char → Bool
  | [], _ => true
  | _ :: _, [] => false
  | a :: as, b :: bs => a = b && startsWithChars as bs

/-- `hasSub needle hay` holds when `needle` occurs contiguously in `hay`. -/
def hasSub (needle : List Char) : List Char → Bool
  | [] => needle.isEmpty
  | c :: rest => startsWithChars needle (c :: rest) || hasSub needle rest

/-- A deterministic remote API used to exercise the pagination loop: two
pages of sizes 2 and 1 under page size 2. -/
def demoServer : List Char → List Nat := fun s =>
  if s = pstr "limit 2 offset 0" then [10, 20]
  else if s = pstr "limit 2 offset 2" then [30]
  else []

/-- The page the loop receives on its `i`-th request when running with the
given query and batch size. -/
def nthPage {α : Type} (server : List Char → List α) (query : Option (List Char))
    (batch i : Nat) : List α :=
  server (get_records_query query batch (i * batch))

end Kintone

namespace Kintone

/-! ### Claim theorems -/

/-- C10: `update_record` raises `KintoneValidationError` whenever both the
record id and the `update_key` arguments are absent, and no request is
constructed in that case. -/
theorem c10_update_record_validation {ρ υ : Type} (app : Nat) (record : ρ)
    (revision : Option Nat) :
    update_record app record (none : Option Nat) (none : Option υ) revision =
      UpdateRecordOutcome.validationError (pstr "Either id or update_key must be specified")
    ∧ ∀ body, update_record app record (none : Option Nat) (none : Option υ) revision ≠
        UpdateRecordOutcome.request body :=
  ⟨rfl, fun _ h => UpdateRecordOutcome.noConfusion h⟩

/-- C9: the uppercase-keyword query of the specification is recognized
identically to its lowercase equivalent — same `base_query`, same limit and
offset — while the captured `order_by` keeps the original casing. -/
theorem c9_case_insensitive :
    parse_kintone_query
        (some (pstr "field1 = \"value1\" ORDER BY field2 DESC LIMIT 50 OFFSET 10"))
        (some 100) (some 0) =
      ⟨pstr "field1 = \"value1\"", some (pstr "ORDER BY field2 DESC"), some 50, some 10⟩
    ∧ parse_kintone_query
        (some (pstr "field1 = \"value1\" order by field2 desc limit 50 offset 10"))
        (some 100) (some 0) =
      ⟨pstr "field1 = \"value1\"", some (pstr "order by field2 desc"), some 50, some 10⟩ := by
  exact ⟨by decide, by decide⟩

/-- C1 fails on the code: on `"a limit offset 5 9"` the source removes the
offset clause *before* searching for a limit clause (the claim's order yields
base `"a limit 9"`, the code yields `"a"`), and on
`"x order by limit 5 limit 7"` the source parses `query_limit` from the
*original* text (5) while the claim's pipeline parses it from the text after
order-by removal (7). -/
theorem c1_counterexample :
    parse_kintone_query (some (pstr "a limit offset 5 9")) none none ≠
      parse_kintone_query_asSpecifiedC1 (some (pstr "a limit offset 5 9")) none none
    ∧ parse_kintone_query (some (pstr "x order by limit 5 limit 7")) none none ≠
      parse_kintone_query_asSpecifiedC1 (some (pstr "x order by limit 5 limit 7")) none none := by
  exact ⟨by decide, by decide⟩

/-- C2 fails on the code: `get_records` never invokes the extractor; it
appends the pagination suffix to the caller query verbatim, so an embedded
`limit 200` survives in the sent parameter. -/
theorem c2_counterexample :
    get_records_query (some (pstr "a limit 200")) 100 0 =
      pstr "a limit 200 limit 100 offset 0"
    ∧ get_records_query_asSpecifiedC2 (some (pstr "a limit 200")) 100 0 =
      pstr "a limit 100 offset 0"
    ∧ get_records_query (some (pstr "a limit 200")) 100 0 ≠
      get_records_query_asSpecifiedC2 (some (pstr "a limit 200")) 100 0 := by
  exact ⟨by decide, by decide, by decide⟩

/-- C3 fails on the code: on `"a li order by f ascmit 7 limit 9"` the
order-by removal glues `"a li"` and `"mit 7 limit 9"` into
`"a limit 7 limit 9"`; the removal loop then excises the newly created
`" limit 7"`, and the returned `base_query = "a limit 9"` still contains the
very substring `" limit 9"` that matched the limit pattern (and supplied
`query_limit = 9`). -/
theorem c3_counterexample :
    (searchNum kwLimit (pstr "a li order by f ascmit 7 limit 9")).map
        (fun m => ((pstr "a li order by f ascmit 7 limit 9").drop m.1).take m.2.1) =
      some (pstr " limit 9")
    ∧ (parse_kintone_query (some (pstr "a li order by f ascmit 7 limit 9")) none none).limit =
      some 9
    ∧ (parse_kintone_query (some (pstr "a li order by f ascmit 7 limit 9")) none none).base_query =
      pstr "a limit 9"
    ∧ hasSub (pstr " limit 9")
        (parse_kintone_query
          (some (pstr "a li order by f ascmit 7 limit 9")) none none).base_query = true := by
  exact ⟨by decide, by decide, by decide, by decide⟩

/-- C4: the returned limit is the minimum of `query_limit` and
`default_limit` when both are present, `query_limit` when only it is present,
and the (possibly absent) default otherwise; in particular a query with
`limit 50` against default 100 yields 50, and one with `limit 200` yields
100. -/
theorem c4_limit_merge :
    (∀ (q : List Char) (dl do_ : Option Nat),
      (parse_kintone_query (some q) dl do_).limit = mergeLimit (queryLimitOf q) dl)
    ∧ (parse_kintone_query (some (pstr "field1 = \"value1\" limit 50"))
        (some 100) (some 0)).limit = some 50
    ∧ (parse_kintone_query (some (pstr "field1 = \"value1\" limit 200"))
        (some 100) (some 0)).limit = some 100 := by
  refine ⟨?_, by decide, by decide⟩
  intro q dl do_
  cases q with
  | nil => rfl
  | cons c cs => rfl

/-- C5: the returned offset is `query_offset` when an offset clause is
present in the query and `default_offset` otherwise; no ceiling is applied to
the query offset (a query offset of 999999 is returned as-is). -/
theorem c5_offset_choice :
    (∀ (q : List Char) (dl do_ : Option Nat),
      (parse_kintone_query (some q) dl do_).offset =
        match queryOffsetOf q with
        | some qo => some qo
        | none => do_)
    ∧ (parse_kintone_query (some (pstr "field1 = \"value1\" offset 50"))
        (some 100) (some 0)).offset = some 50
    ∧ (parse_kintone_query (some (pstr "a offset 999999")) (some 100) (some 0)).offset =
      some 999999 := by
  refine ⟨?_, by decide, by decide⟩
  intro q dl do_
  cases q with
  | nil => rfl
  | cons c cs => rfl

/-- C1 amended: `query_limit` is parsed from the first limit match against
the *original* query text, while the removals are performed on the text after
order-by removal with the *offset* clause removed first and the limit clause
second, each removal re-searching the current text and excising only its
first match. -/
theorem c1_limit_source_and_removal_order :
    ∀ (q : List Char) (dl do_ : Option Nat),
      (parse_kintone_query (some q) dl do_).limit = mergeLimit (queryLimitOf q) dl
      ∧ (parse_kintone_query (some q) dl do_).base_query =
        pyStrip (removeNum kwLimit (removeNum kwOffset (removeOrderBy q))) := by
  intro q dl do_
  cases q with
  | nil => exact ⟨rfl, rfl⟩
  | cons c cs => exact ⟨rfl, rfl⟩

/-- C3 amended: `base_query` is the input with the first-matched spans
excised — the order-by span first, then the first offset and first limit
spans as re-matched on the already-modified text — and trimmed; a span that
matched a pattern on the original text can survive inside `base_query` when
an earlier removal rewrites the text around it.  The extracted `order_by`,
when present, is exactly the originally matched span, trimmed. -/
theorem c3_excision_and_order_by :
    ∀ (q : List Char) (dl do_ : Option Nat),
      (parse_kintone_query (some q) dl do_).base_query =
        pyStrip (removeNum kwLimit (removeNum kwOffset (removeOrderBy q)))
      ∧ (parse_kintone_query (some q) dl do_).order_by =
        (searchOrder q).map (fun m => pyStrip ((q.drop m.1).take m.2))
      ∧ removeOrderBy q =
        (match searchOrder q with
          | some m => q.take m.1 ++ q.drop (m.1 + m.2)
          | none => q) := by
  intro q dl do_
  refine ⟨?_, ?_, ?_⟩
  · cases q with
    | nil => rfl
    | cons c cs => rfl
  · cases q with
    | nil => rfl
    | cons c cs => rfl
  · unfold removeOrderBy removeSpan
    cases searchOrder q <;> rfl

/-- C8: a non-empty query in which none of the three patterns occurs passes
through: `base_query` is the trimmed input, `order_by` is absent, and limit
and offset are the caller defaults. -/
theorem c8_passthrough (q : List Char) (dl do_ : Option Nat)
    (hne : q ≠ []) (ho : searchOrder q = none)
    (hl : searchNum kwLimit q = none) (hoff : searchNum kwOffset q = none) :
    parse_kintone_query (some q) dl do_ = ⟨pyStrip q, none, dl, do_⟩ := by
  cases q with
  | nil => exact absurd rfl hne
  | cons c cs =>
    simp only [parse_kintone_query, ho, hl, hoff, Option.map_none]
    rfl

theorem c8_passthrough_witness :
    (pstr "field1 = \"value1\" and field2 > 10" ≠ []
      ∧ searchOrder (pstr "field1 = \"value1\" and field2 > 10") = none
      ∧ searchNum kwLimit (pstr "field1 = \"value1\" and field2 > 10") = none
      ∧ searchNum kwOffset (pstr "field1 = \"value1\" and field2 > 10") = none)
    ∧ parse_kintone_query (some (pstr "field1 = \"value1\" and field2 > 10"))
        (some 100) (some 0) =
      ⟨pyStrip (pstr "field1 = \"value1\" and field2 > 10"), none, some 100, some 0⟩ :=
  ⟨⟨by decide, by decide, by decide, by decide⟩,
    c8_passthrough _ _ _ (by decide) (by decide) (by decide) (by decide)⟩

/-- C2 amended: `get_records` does not invoke the extractor; the single query
parameter it sends is the caller query forwarded verbatim followed by the
literal suffix `limit <size> offset <offset>` with
`size = min(limit, MAX_RECORDS_PER_REQUEST)`, and the suffix alone when the
caller query is absent or empty. -/
theorem c2_query_parameter :
    (∀ (c : Char) (cs : List Char) (n m : Nat),
      get_records_query (some (c :: cs)) n m =
        (c :: cs) ++ pstr " limit " ++ natToChars (min n MAX_RECORDS_PER_REQUEST)
          ++ pstr " offset " ++ natToChars m)
    ∧ (∀ n m : Nat, get_records_query none n m =
        pstr "limit " ++ natToChars (min n MAX_RECORDS_PER_REQUEST)
          ++ pstr " offset " ++ natToChars m)
    ∧ (∀ n m : Nat, get_records_query (some []) n m =
        pstr "limit " ++ natToChars (min n MAX_RECORDS_PER_REQUEST)
          ++ pstr " offset " ++ natToChars m) := by
  refine ⟨?_, ?_, ?_⟩ <;> intros <;>
    simp [get_records_query, pstr, List.append_assoc]

/-! ### Totality of the extractor (C7) -/

lemma munch_take_all (p : Char → Bool) : ∀ (s : List Char), ∀ c ∈ s.take (munch p s), p c := by
  intro s
  induction s with
  | nil => intro c hc; simp at hc
  | cons a rest ih =>
    intro c hc
    by_cases hp : p a
    · rw [munch, if_pos hp] at hc
      rcases List.mem_cons.mp (by simpa using hc) with h | h
      · exact h ▸ hp
      · exact ih c h
    · rw [munch, if_neg hp] at hc
      simp at hc

lemma munch_ne_zero_ne_nil {p : Char → Bool} {s : List Char} (h : munch p s ≠ 0) :
    s ≠ [] := by
  intro hs
  subst hs
  exact h rfl

lemma numClauseAt_digits {kw s : List Char} {m : Nat × List Char}
    (h : numClauseAt kw s = some m) : m.2 ≠ [] ∧ ∀ c ∈ m.2, isPyDigit c := by
  simp only [numClauseAt] at h
  split at h
  · exact Option.noConfusion h
  · split at h
    · split at h
      · exact Option.noConfusion h
      · split at h
        · exact Option.noConfusion h
        · next hd =>
          cases h
          refine ⟨?_, munch_take_all _ _⟩
          have hne := munch_ne_zero_ne_nil hd
          intro htake
          rcases List.take_eq_nil_iff.mp htake with h0 | h0
          · exact hd h0
          · exact hne h0
    · exact Option.noConfusion h

lemma searchNumAux_digits {kw : List Char} :
    ∀ (s : List Char) (i : Nat) (m : Nat × Nat × List Char),
      searchNumAux kw s i = some m → m.2.2 ≠ [] ∧ ∀ c ∈ m.2.2, isPyDigit c := by
  intro s
  induction s with
  | nil => intro i m h; exact Option.noConfusion h
  | cons c cs ih =>
    intro i m h
    simp only [searchNumAux] at h
    rcases hn : numClauseAt kw (c :: cs) with _ | p
    · rw [hn] at h
      exact ih _ _ h
    · obtain ⟨len, ds⟩ := p
      rw [hn] at h
      cases h
      exact numClauseAt_digits hn

lemma searchNum_int {kw q : List Char} {m : Nat × Nat × List Char}
    (h : searchNum kw q = some m) :
    pyIntDigits m.2.2 = some (digitsToNat m.2.2) := by
  obtain ⟨hne, hall⟩ := searchNumAux_digits q 0 m h
  rw [pyIntDigits, if_pos ⟨hne, List.all_eq_true.mpr fun c hc => hall c hc⟩]

/-- C7: the extractor is total.  Every input yields a `ParseResult`; in the
instrumented embedding, where the two `int()` conversions may fail, no input
ever reaches the failure branch — the result is always `Except.ok` and agrees
with the total embedding.  The function is pure: it is a plain function of
its arguments with no effect type. -/
theorem c7_total_no_exception :
    ∀ (query : Option (List Char)) (dl do_ : Option Nat),
      parse_kintone_queryE query dl do_ =
        Except.ok (parse_kintone_query query dl do_) := by
  intro query dl do_
  match query with
  | none => rfl
  | some [] => rfl
  | some (c :: cs) =>
    rcases hL : searchNum kwLimit (c :: cs) with _ | mL <;>
      rcases hO : searchNum kwOffset (c :: cs) with _ | mO
    · simp only [parse_kintone_queryE, parse_kintone_query, hL, hO]
      rfl
    · simp only [parse_kintone_queryE, parse_kintone_query, hL, hO, searchNum_int hO]
      rfl
    · simp only [parse_kintone_queryE, parse_kintone_query, hL, hO, searchNum_int hL]
      rfl
    · simp only [parse_kintone_queryE, parse_kintone_query, hL, hO,
        searchNum_int hL, searchNum_int hO]
      rfl

/-! ### Pagination loop (C6) -/

lemma get_all_records_aux_spec {α : Type} (server : List Char → List α)
    (query : Option (List Char)) (batch : Nat) :
    ∀ (k j fuel : Nat), k < fuel →
      (∀ i, i < k → batch ≤ (nthPage server query batch (j + i)).length) →
      (nthPage server query batch (j + k)).length < batch →
      get_all_records_aux server query batch fuel (j * batch) =
        (((List.range (k + 1)).map (fun i => nthPage server query batch (j + i))).flatten,
          (List.range (k + 1)).map (fun i => (j + i) * batch)) := by
  intro k
  induction k with
  | zero =>
    intro j fuel hfuel hfull hshort
    obtain ⟨f, rfl⟩ : ∃ f, fuel = f + 1 := ⟨fuel - 1, by omega⟩
    rw [Nat.add_zero] at hshort
    have hshort' : (server (get_records_query query batch (j * batch))).length < batch :=
      hshort
    simp only [get_all_records_aux]
    by_cases hE : (server (get_records_query query batch (j * batch))).isEmpty
    · rw [if_pos hE]
      have hnil : server (get_records_query query batch (j * batch)) = [] :=
        List.isEmpty_iff.mp hE
      simp [List.range_succ, nthPage, hnil]
    · rw [if_neg hE, if_pos hshort']
      simp [List.range_succ, nthPage]
  | succ k ih =>
    intro j fuel hfuel hfull hshort
    obtain ⟨f, rfl⟩ : ∃ f, fuel = f + 1 := ⟨fuel - 1, by omega⟩
    simp only [get_all_records_aux]
    have hfull0 : batch ≤ (server (get_records_query query batch (j * batch))).length := by
      have h := hfull 0 (Nat.succ_pos k)
      rwa [Nat.add_zero] at h
    have hne : ¬ (server (get_records_query query batch (j * batch))).isEmpty = true := by
      rw [List.isEmpty_iff]
      exact List.ne_nil_of_length_pos (by omega)
    rw [if_neg hne, if_neg (Nat.not_lt.mpr hfull0)]
    have harg : j * batch + batch = (j + 1) * batch := (Nat.succ_mul j batch).symm
    rw [harg, ih (j + 1) f (by omega)
      (fun i hi => by
        have h := hfull (i + 1) (by omega)
        rwa [show j + (i + 1) = j + 1 + i by omega] at h)
      (by rwa [show j + 1 + k = j + (k + 1) by omega])]
    have hmap1 : (List.range (k + 1)).map ((fun i => nthPage server query batch (j + i)) ∘ Nat.succ)
        = (List.range (k + 1)).map (fun i => nthPage server query batch (j + 1 + i)) :=
      List.map_congr_left fun a _ => by
        simp only [Function.comp_apply]
        congr 1
        omega
    have hmap2 : (List.range (k + 1)).map ((fun i => (j + i) * batch) ∘ Nat.succ)
        = (List.range (k + 1)).map (fun i => (j + 1 + i) * batch) :=
      List.map_congr_left fun a _ => by
        simp only [Function.comp_apply]
        congr 1
        omega
    conv_rhs => rw [List.range_succ_eq_map, List.map_cons, List.map_cons,
      List.map_map, List.map_map, List.flatten_cons, hmap1, hmap2]
    rfl

/-- C6: `get_all_records` requests pages one at a time at offsets
`0, batch, 2*batch, …` in strictly increasing order, returns the
concatenation of the pages it received, and stops at the first page that is
empty or shorter than the batch size (page `k`, all earlier pages being
full). -/
theorem c6_pagination {α : Type} (server : List Char → List α)
    (query : Option (List Char)) (batch k fuel : Nat)
    (hb : 0 < batch) (hfuel : k < fuel)
    (hfull : ∀ i, i < k → batch ≤ (nthPage server query batch i).length)
    (hshort : (nthPage server query batch k).length < batch) :
    get_all_records server query batch fuel =
      (((List.range (k + 1)).map (nthPage server query batch)).flatten,
        (List.range (k + 1)).map (fun i => i * batch))
    ∧ List.Pairwise (· < ·) ((List.range (k + 1)).map (fun i => i * batch)) := by
  constructor
  · have h := get_all_records_aux_spec server query batch k 0 fuel hfuel
      (fun i hi => by simpa using hfull i hi) (by simpa using hshort)
    rw [Nat.zero_mul] at h
    unfold get_all_records
    rw [h]
    simp
  · exact (List.pairwise_lt_range _).map _
      (fun a b hab => Nat.mul_lt_mul_of_pos_right hab hb)

theorem c6_pagination_witness :
    ((0 : Nat) < 2 ∧ 1 < 3
      ∧ (∀ i, i < 1 → 2 ≤ (nthPage demoServer none 2 i).length)
      ∧ (nthPage demoServer none 2 1).length < 2)
    ∧ (get_all_records demoServer none 2 3 =
        (((List.range 2).map (nthPage demoServer none 2)).flatten,
          (List.range 2).map (fun i => i * 2))
      ∧ List.Pairwise (· < ·) ((List.range 2).map (fun i => i * 2))) :=
  ⟨⟨by decide, by decide, by decide, by decide⟩,
    c6_pagination demoServer none 2 1 3 (by decide) (by decide) (by decide) (by decide)⟩

end Kintone
